import Mathlib

/-!
Verification of the natural-language-to-SQL query agent of this repository
(rag-analytics-agent and its near-duplicate crypto-intelligence-agent).

The Python sources are shallowly embedded as executable Lean definitions:

* `validate_sql`      — src/rag-analytics-agent/src/sql_validator.py
* `execute_duckdb`, `execute_snowflake`, `execute_query`
                      — src/rag-analytics-agent/src/query_executor.py
* `loadSchema`        — src/rag-analytics-agent/src/schema_indexer.py (_load_schema)
* `queryHandler`, `write_log`
                      — src/rag-analytics-agent/api/main.py (query) and src/logger.py

Python strings are modelled as `String` (operated on through `List Char`);
Python's `str.split()`, `str.strip()`, `str.upper()`, `str.rstrip(chars)` and
the `re.search(r"\bKW\b", ...)` word-boundary search are each given a faithful
executable model below.  Only the ASCII fragment matters for every string the
program manipulates, so `Char.toUpper` (ASCII case folding) models `str.upper`.
-/

namespace SqlAgent

/-- The whitespace characters recognised by Python's `str.split`/`str.strip`:
space, tab, newline, carriage return, vertical tab, form feed. -/
def pyIsSpace (c : Char) : Bool :=
  c == ' ' || c == '\t' || c == '\n' || c == '\r' ||
  c == Char.ofNat 11 || c == Char.ofNat 12

/-- Word-constituent characters of the regex `\b` boundary (`\w`): ASCII
letters, digits and underscore. -/
def isWordChar (c : Char) : Bool :=
  c.isAlpha || c.isDigit || c == '_'

def isWordO : Option Char → Bool
  | none => false
  | some c => isWordChar c

/-- Model of `str.split()` with no argument: split on runs of whitespace,
dropping empty pieces.  `acc` holds the current token, reversed. -/
def splitAux : List Char → List Char → List (List Char)
  | [], acc => if acc = [] then [] else [acc.reverse]
  | c :: cs, acc =>
    if pyIsSpace c then
      (if acc = [] then splitAux cs [] else acc.reverse :: splitAux cs [])
    else splitAux cs (c :: acc)

def pySplitL (l : List Char) : List (List Char) := splitAux l []

/-- Model of joining tokens with a single space (Python `" ".join(tokens)`). -/
def joinSep : List (List Char) → List Char
  | [] => []
  | [t] => t
  | t :: ts => t ++ ' ' :: joinSep ts

/-- Strip from the right every trailing character satisfying `p`
(one application of Python's `str.rstrip(chars)`). -/
def rstripP (p : Char → Bool) (l : List Char) : List Char :=
  (l.reverse.dropWhile p).reverse

/-- Python `str.strip()` (both-ends whitespace strip). -/
def stripL (l : List Char) : List Char :=
  rstripP pyIsSpace (l.dropWhile pyIsSpace)

def pyStrip (s : String) : String := String.mk (stripL s.toList)

def upperL (l : List Char) : List Char := l.map Char.toUpper

def pyUpper (s : String) : String := String.mk (upperL s.toList)

/-- Python's substring containment `pat in l`. -/
def containsSub (pat : List Char) : List Char → Bool
  | [] => pat.isPrefixOf []
  | l@(_ :: rest) => pat.isPrefixOf l || containsSub pat rest

/-- One candidate position of `re.search(rf"\b{pat}\b", s)`: the pattern
matches the text at offset `i`, with a `\b` word boundary on each side
(a boundary holds where exactly one of the two adjacent characters is a
word character; a missing character — string edge — counts as non-word). -/
def wbMatchAt (pat s : List Char) (i : Nat) : Bool :=
  pat.isPrefixOf (s.drop i) &&
  (isWordO (if i = 0 then none else s.get? (i - 1)) != isWordO (s.get? i)) &&
  (isWordO pat.getLast? != isWordO (s.get? (i + pat.length)))

/-- Model of the regex word-boundary search: true iff the escaped pattern
bracketed by word boundaries matches somewhere in `s`. -/
def wbSearch (pat s : List Char) : Bool :=
  (List.range (s.length + 1)).any (wbMatchAt pat s)

/-- The whitespace normalisation of the validator:
`" ".join(sql.split())`. -/
def normaliseL (l : List Char) : List Char := joinSep (pySplitL l)

/-- The `BLOCKED_KEYWORDS` of sql_validator.py.  The Python source stores these in
a `set`, whose iteration order is unspecified; this list fixes the textual
order of the source.  No theorem below depends on which of several
simultaneously-matching keywords is reported. -/
def BLOCKED_KEYWORDS : List (List Char) :=
  ["DROP".toList, "DELETE".toList, "TRUNCATE".toList, "UPDATE".toList,
   "INSERT".toList, "MERGE".toList, "ALTER".toList, "CREATE".toList,
   "GRANT".toList, "REVOKE".toList, "EXECUTE".toList, "EXEC".toList,
   "CALL".toList, "PUT".toList, "GET".toList, "REMOVE".toList,
   "COPY INTO".toList, "SYSTEM$".toList]

/-- First blocked keyword whose word-boundary pattern matches the text. -/
def findBlocked (u : List Char) : Option (List Char) :=
  BLOCKED_KEYWORDS.find? (fun kw => wbSearch kw u)

/-- A single quote character, used inside the validator's error messages. -/
def sq : String := String.singleton (Char.ofNat 39)

def emptyMsg : String :=
  "Empty SQL generated — the model returned no output."

def cannotAnswerMsg : String :=
  "The agent could not generate SQL for this question. " ++
  "Try rephrasing, or check that the relevant table is in the schema."

def allowMsg (fk : String) : String :=
  "Only SELECT queries are permitted. " ++
  "The model generated a query starting with: " ++ fk

def blockedMsg (kw : String) : String :=
  "Blocked keyword " ++ sq ++ kw ++ sq ++
  " found in generated SQL. Query rejected for safety."

/-- Model of `validate_sql` of sql_validator.py.  A raised `SQLValidationError`
is modelled as `Except.error` carrying the message.  The source performs, in
order: the emptiness check, the sentinel check on the stripped upper-cased
text, whitespace normalisation, the SELECT/WITH allowlist check on the first
token, the word-boundary blocklist scan over the upper-cased normalised text,
and finally — only when the five characters of LIMIT occur nowhere in the
upper-cased normalised text — appending a LIMIT clause to the query after
one right-strip of semicolons and one right-strip of whitespace. -/
def validate_sql (sql : String) (max_rows : Nat := 500) : Except String String :=
  match pySplitL sql.toList with
  | [] => .error emptyMsg
  | _ :: _ =>
    if pyUpper (pyStrip sql) = "CANNOT_ANSWER" then .error cannotAnswerMsg
    else
      let normalised : List Char := normaliseL sql.toList
      let first_keyword : List Char := upperL ((pySplitL normalised).headD [])
      if first_keyword = "SELECT".toList ∨ first_keyword = "WITH".toList then
        match findBlocked (upperL normalised) with
        | some kw => .error (blockedMsg (String.mk kw))
        | none =>
          if containsSub "LIMIT".toList (upperL normalised) then
            .ok (String.mk normalised)
          else
            .ok (String.mk (rstripP pyIsSpace (rstripP (· == ';') normalised) ++
                  (" LIMIT " ++ toString max_rows).toList))
      else .error (allowMsg (String.mk first_keyword))

/-! ## Query executor (query_executor.py)

The database drivers are modelled as function parameters.  A DuckDB cursor
yields a column-name list plus row tuples (`cursor.description` and
`fetchall`); a Snowflake `DictCursor` yields rows that are already
column-to-value mappings.  A driver failure is an `Except.error`. -/

/-- The `MAX_ROWS` of config.py (default value of the environment variable). -/
def MAX_ROWS : Nat := 500

/-- Model of `_execute_duckdb`: run the query, then build one dict per row by
zipping the column names with the row tuple.  Every fetched row is returned
(`fetchall`). -/
def execute_duckdb {α : Type} (db : String → Except String (List String × List (List α)))
    (sql : String) : Except String (List (List (String × α))) :=
  match db sql with
  | .error e => .error e
  | .ok (columns, rows) => .ok (rows.map (fun row => columns.zip row))

/-- Model of `_execute_snowflake`: run the query and return
`cursor.fetchmany(MAX_ROWS)`, i.e. at most `MAX_ROWS` of the result rows. -/
def execute_snowflake {α : Type} (db : String → Except String (List (List (String × α))))
    (sql : String) : Except String (List (List (String × α))) :=
  match db sql with
  | .error e => .error e
  | .ok rows => .ok (rows.take MAX_ROWS)

/-- The `RuntimeError` message `execute_query` wraps a backend failure in. -/
def runtimeWrapMsg (backend e : String) : String :=
  "Query execution failed on " ++ backend ++
  ". Check that the database is seeded (make seed) and the SQL is valid. Error: " ++ e

/-- Model of `execute_query`: route to the backend selected by `USE_MOCK_DB`
and wrap any backend exception in a `RuntimeError` with a generic message. -/
def execute_query {α : Type} (useMockDb : Bool)
    (duck : String → Except String (List String × List (List α)))
    (snow : String → Except String (List (List (String × α))))
    (sql : String) : Except String (List (List (String × α))) :=
  let backend := if useMockDb then "DuckDB (mock)" else "Snowflake"
  match (if useMockDb then execute_duckdb duck sql else execute_snowflake snow sql) with
  | .ok rows => .ok rows
  | .error e => .error (runtimeWrapMsg backend e)

/-! ## Logger (logger.py) and orchestrator (api/main.py `query` handler)

The `QueryLog` dataclass is modelled without its wall-clock fields
(`run_id`, `created_at`, `latency_ms`), which are fresh environment values
with no bearing on any claim.  Exceptions are split by the types the
handler's `except` clauses dispatch on: `SQLValidationError`,
`RuntimeError`, and everything else. -/

inductive PyErr where
  | validation (msg : String)
  | runtime (msg : String)
  | other (msg : String)
deriving Repr, DecidableEq

structure QueryLog where
  question : String
  generated_sql : String
  answer : String
  row_count : Nat
  schema_tables_used : List String
  error : Option String
deriving Repr, DecidableEq

/-- Model of `write_log` of logger.py: the database write (`sink`, covering
`_ensure_log_table` plus the INSERT) is attempted and any exception it
raises is swallowed after printing a warning — the function itself never
raises. -/
def write_log (sink : QueryLog → Except String Unit) (log : QueryLog) :
    Except PyErr Unit :=
  match sink log with
  | .ok _ => .ok ()
  | .error _ => .ok ()

/-- Worker for `replaceAll`: structural recursion on a fuel argument (each
step consumes at least one character, so fuel equal to the input length is
always enough; the fuel-exhausted branch is unreachable). -/
def replaceAllAux (pat repl : List Char) : Nat → List Char → List Char
  | _, [] => []
  | 0, l => l
  | fuel + 1, c :: cs =>
    if pat ≠ [] ∧ pat.isPrefixOf (c :: cs) then
      repl ++ replaceAllAux pat repl fuel ((c :: cs).drop pat.length)
    else
      c :: replaceAllAux pat repl fuel cs

/-- Replace every occurrence of a (non-empty) pattern, Python `str.replace`. -/
def replaceAll (pat repl l : List Char) : List Char :=
  replaceAllAux pat repl l.length l

/-- Extraction of the retrieved table names in the handler: the lines of the
schema context that start with a table marker, with the marker removed and
whitespace stripped.  (Python `splitlines` would also split on rarer line
terminators; the schema context only ever contains newlines.) -/
def extractTables (ctx : String) : List String :=
  ((ctx.toList.splitOn '\n').filter (fun ln => "Table:".toList.isPrefixOf ln)).map
    (fun ln => String.mk (stripL (replaceAll "Table:".toList [] ln)))

/-- The external services the handler calls, as oracle functions.  `retrieve`
returns the schema context, `generate` maps question and context to raw SQL
(the dialect argument is a process-wide constant and is omitted), `execute`
returns result rows, `format` produces the answer, and `logSink` is the
log-table INSERT used by `write_log`. -/
structure Oracles where
  retrieve : String → Except PyErr String
  generate : String → String → Except PyErr String
  execute : String → Except PyErr (List (List (String × String)))
  format : String → String → List (List (String × String)) → Except PyErr String
  logSink : QueryLog → Except String Unit

inductive HandlerOutcome where
  | success (sql answer : String) (row_count : Nat) (tables : List String)
  | httpError (code : Nat) (detail : String)
  | uncaught (e : PyErr)
deriving Repr, DecidableEq

/-- The observable behaviour of one request: the response (or escaped
exception), the records passed to `write_log`, and whether the executor and
formatter were reached. -/
structure HandlerResult where
  outcome : HandlerOutcome
  logCalls : List QueryLog
  executorCalled : Bool
  formatterCalled : Bool
deriving Repr, DecidableEq

/-- The two `except` clauses of the handler: a `SQLValidationError` is logged
and returned as HTTP 422, a `RuntimeError` is logged and returned as HTTP
500, and any other exception propagates out of the handler with no log
write. -/
def handleExc (e : PyErr) (log : QueryLog) (execd fmtd : Bool) : HandlerResult :=
  match e with
  | .validation m =>
    { outcome := .httpError 422 m, logCalls := [{ log with error := some m }],
      executorCalled := execd, formatterCalled := fmtd }
  | .runtime m =>
    { outcome := .httpError 500 m, logCalls := [{ log with error := some m }],
      executorCalled := execd, formatterCalled := fmtd }
  | .other m =>
    { outcome := .uncaught (.other m), logCalls := [],
      executorCalled := execd, formatterCalled := fmtd }

/-- Model of the `query` handler of api/main.py: retrieve, generate,
validate, execute, format, then log; the whole pipeline runs in one `try`
whose `except` clauses are `handleExc`.  The 503 index-not-ready fast path
precedes all of this and is outside the model. -/
def queryHandler (o : Oracles) (request_question : String) : HandlerResult :=
  let question := pyStrip request_question
  let log0 : QueryLog :=
    { question := question, generated_sql := "", answer := "", row_count := 0,
      schema_tables_used := [], error := none }
  match o.retrieve question with
  | .error e => handleExc e log0 false false
  | .ok ctx =>
    let log1 := { log0 with schema_tables_used := extractTables ctx }
    match o.generate question ctx with
    | .error e => handleExc e log1 false false
    | .ok raw =>
      let log2 := { log1 with generated_sql := raw }
      match validate_sql raw with
      | .error m => handleExc (.validation m) log2 false false
      | .ok safe =>
        match o.execute safe with
        | .error e => handleExc e log2 true false
        | .ok results =>
          let log3 := { log2 with row_count := results.length }
          match o.format question safe results with
          | .error e => handleExc e log3 true false
          | .ok answer =>
            { outcome := .success safe answer results.length
                (extractTables ctx),
              logCalls := [{ log3 with answer := answer }],
              executorCalled := true, formatterCalled := true }

/-! ## Schema indexer (schema_indexer.py `_load_schema`) -/

structure SchemaColumn where
  name : String
  type : String
  description : String
deriving Repr, DecidableEq

structure SchemaModel where
  name : String
  description : String
  columns : List SchemaColumn
  sample_questions : List String
deriving Repr, DecidableEq

structure SchemaChunk where
  id : String
  text : String
  table_name : String
  column_count : String
  column_names : String
deriving Repr, DecidableEq

/-- Joining strings with a newline (Python `"\n".join`). -/
def joinNL : List String → String
  | [] => ""
  | [x] => x
  | x :: xs => x ++ "\n" ++ joinNL xs

/-- Joining strings with a comma (Python `",".join`). -/
def joinComma : List String → String
  | [] => ""
  | [x] => x
  | x :: xs => x ++ "," ++ joinComma xs

/-- One line of the column list of a chunk. -/
def colLine (c : SchemaColumn) : String :=
  "  - " ++ c.name ++ " (" ++ c.type ++ "): " ++ c.description

/-- One line of the sample-question list of a chunk. -/
def sampleLine (q : String) : String := "  - " ++ q

/-- The text of one schema chunk, as assembled by `_load_schema`. -/
def chunkText (m : SchemaModel) : String :=
  "Table: " ++ m.name ++ "\n" ++
  "Description: " ++ m.description ++ "\n" ++
  "Columns:\n" ++ joinNL (m.columns.map colLine) ++ "\n" ++
  "Example questions this table can answer:\n" ++
  joinNL (m.sample_questions.map sampleLine)

/-- Model of `_load_schema`: one chunk per table, id equal to the table
name, with the metadata fields of the source. -/
def loadSchema (models : List SchemaModel) : List SchemaChunk :=
  models.map (fun m =>
    { id := m.name,
      text := chunkText m,
      table_name := m.name,
      column_count := toString m.columns.length,
      column_names := joinComma (m.columns.map (fun c => c.name)) })

/-- True on an outcome that is an exception escaping the handler. -/
def HandlerOutcome.isUncaught : HandlerOutcome → Bool
  | .uncaught _ => true
  | _ => false

/-- The error detail of an outcome: the HTTP detail string on a handled
error, nothing on success or on an escaped exception. -/
def HandlerOutcome.errDetail : HandlerOutcome → Option String
  | .httpError _ m => some m
  | _ => none

/-- A concrete well-behaved oracle set used by several concrete theorems. -/
def demoOracles : Oracles where
  retrieve := fun _ => .ok "Table: users"
  generate := fun _ _ => .ok "SELECT a FROM users"
  execute := fun _ => .ok []
  format := fun _ _ _ => .ok "no data"
  logSink := fun _ => .ok ()

/-- Substring containment at the `String` level, used to state the chunking
invariant: the needle occurs contiguously inside the haystack. -/
def IsSubstr (needle hay : String) : Prop :=
  ∃ p q : String, hay = p ++ (needle ++ q)

/-- A concrete schema table used by concrete instantiations. -/
def demoModel : SchemaModel where
  name := "users"
  description := "registered users"
  columns :=
    [{ name := "id", type := "INTEGER", description := "primary key" },
     { name := "region", type := "VARCHAR", description := "home region" }]
  sample_questions := ["how many users per region?"]

/-! ## Claim-side definitions

These two definitions follow the words of claim C1 (not the source); they
formalise "contains no second statement" and "result size is bounded by a
LIMIT of at most max_rows" so that the claim can be refuted on a concrete
validator output. -/

/-- Claim-side: a string is a single statement when, after discarding a
trailing statement terminator (trailing semicolons and whitespace), no
semicolon remains. -/
def specSingleStatement (out : String) : Bool :=
  !(rstripP pyIsSpace (rstripP (· == ';') out.toList)).any (· == ';')

/-- Numeric value of a digit string. -/
def digitsToNat (l : List Char) : Nat :=
  l.foldl (fun n c => n * 10 + (c.toNat - 48)) 0

/-- Claim-side: the case-folded token list contains an adjacent pair
`LIMIT n` with `n` a numeral of value at most `maxRows`. -/
def specBoundedByLimit (out : String) (maxRows : Nat) : Bool :=
  let toks := pySplitL (upperL out.toList)
  (toks.zip toks.tail).any (fun p =>
    p.1 = "LIMIT".toList ∧ p.2 ≠ [] ∧ p.2.all Char.isDigit ∧
    digitsToNat p.2 ≤ maxRows)

/-! ## Basic string lemmas -/

theorem str_toList_append (a b : String) :
    (a ++ b).toList = a.toList ++ b.toList := by
  cases a
  cases b
  rfl

theorem str_append_assoc (a b c : String) :
    a ++ b ++ c = a ++ (b ++ c) := by
  apply String.ext
  have h1 := str_toList_append (a ++ b) c
  have h2 := str_toList_append a b
  have h3 := str_toList_append a (b ++ c)
  have h4 := str_toList_append b c
  simp only [String.toList] at *
  rw [h1, h2, h3, h4, List.append_assoc]

theorem str_nil_append (a : String) : "" ++ a = a := by
  cases a
  rfl

theorem str_append_nil (a : String) : a ++ "" = a := by
  cases a
  exact congrArg String.mk (List.append_nil _)

theorem isSubstr_of_append (n p q : String) : IsSubstr n (p ++ (n ++ q)) :=
  ⟨p, q, rfl⟩

theorem isSubstr_extend_left (x n h : String) (hs : IsSubstr n h) :
    IsSubstr n (x ++ h) := by
  obtain ⟨p, q, rfl⟩ := hs
  exact ⟨x ++ p, q, (str_append_assoc x p (n ++ q)).symm⟩

theorem isSubstr_extend_right (x n h : String) (hs : IsSubstr n h) :
    IsSubstr n (h ++ x) := by
  obtain ⟨p, q, rfl⟩ := hs
  refine ⟨p, q ++ x, ?_⟩
  rw [str_append_assoc, str_append_assoc]

theorem isSubstr_trans (a b c : String) (h1 : IsSubstr a b) (h2 : IsSubstr b c) :
    IsSubstr a c := by
  obtain ⟨p, q, rfl⟩ := h1
  obtain ⟨p2, q2, rfl⟩ := h2
  refine ⟨p2 ++ p, q ++ q2, ?_⟩
  rw [str_append_assoc, str_append_assoc, str_append_assoc]

/-! ## Lemmas on `pySplitL` emptiness -/

theorem splitAux_eq_nil (l : List Char) : ∀ acc,
    splitAux l acc = [] ↔ (acc = [] ∧ ∀ c ∈ l, pyIsSpace c = true) := by
  induction l with
  | nil =>
    intro acc
    by_cases h : acc = [] <;> simp [splitAux, h]
  | cons c cs ih =>
    intro acc
    by_cases hsp : pyIsSpace c
    · by_cases h : acc = [] <;> simp [splitAux, hsp, h, ih]
    · simp only [splitAux, hsp, if_false, Bool.false_eq_true, ih (c :: acc)]
      simp [hsp]

theorem pySplitL_eq_nil (l : List Char) :
    pySplitL l = [] ↔ ∀ c ∈ l, pyIsSpace c = true := by
  simpa using splitAux_eq_nil l []

/-! ## C6 — blocklist word-boundary matching (confirmed)

A blocked keyword occurring only inside a longer identifier does not fire,
while the same keyword as a standalone token fails validation naming it. -/

/-- C6: `CREATE` inside the identifier `created_at` passes the blocklist (the
query validates, gaining only the appended LIMIT clause), while `CREATE` as a
standalone token is rejected with the error naming that keyword. -/
theorem validate_sql_word_boundary :
    validate_sql "SELECT created_at FROM t" 500 =
      .ok "SELECT created_at FROM t LIMIT 500" ∧
    validate_sql "SELECT 1; CREATE TABLE x" 500 = .error (blockedMsg "CREATE") :=
  ⟨rfl, rfl⟩

/-! ## C10 — blocklist scans string literals too (confirmed) -/

/-- C10: a pure SELECT whose only occurrence of a blocked keyword is inside a
quoted string literal is still rejected with the blocked-keyword error: the
scan runs over the whole normalised text, quotes included. -/
theorem validate_sql_blocklist_in_string_literal :
    validate_sql
      ("SELECT * FROM t WHERE note = " ++ sq ++ "please DROP this" ++ sq) 500 =
      .error (blockedMsg "DROP") := rfl

/-! ## C1 — counterexample to "single statement bounded by LIMIT" -/

/-- C1 counterexample: this input validates unchanged, yet the output contains
a second `;`-separated statement and no LIMIT clause at all — the validator
checks neither property (its LIMIT test is substring containment, satisfied
here by the identifier `delimited`). -/
theorem validate_sql_single_statement_counterexample :
    validate_sql "SELECT a FROM t; SELECT delimited FROM u" 500 =
      .ok "SELECT a FROM t; SELECT delimited FROM u" ∧
    specSingleStatement "SELECT a FROM t; SELECT delimited FROM u" = false ∧
    specBoundedByLimit "SELECT a FROM t; SELECT delimited FROM u" 500 = false :=
  ⟨rfl, rfl, rfl⟩

/-! ## C4 — counterexample to token-based LIMIT detection -/

/-- C4 counterexample: no standalone `LIMIT` token occurs in the case-folded
input, yet nothing is appended — the code tests substring containment, and
the identifier `delimited` contains the five characters of LIMIT. -/
theorem validate_sql_limit_token_counterexample :
    validate_sql "SELECT delimited FROM t" 500 = .ok "SELECT delimited FROM t" ∧
    "LIMIT".toList ∉ pySplitL (upperL "SELECT delimited FROM t".toList) :=
  ⟨rfl, by decide⟩

/-! ## C2 — row capping by the executor (corrected) -/

/-- C2 counterexample: in mock mode the DuckDB backend returns every fetched
row — here one more than `MAX_ROWS` — because `_execute_duckdb` uses
`fetchall()` with no cap. -/
theorem execute_query_duckdb_uncapped :
    (execute_query true
        (fun _ => .ok (["c"], List.replicate (MAX_ROWS + 1) (["v"] : List String)))
        (fun _ => .ok ([] : List (List (String × String))))
        "SELECT c FROM t").map List.length = .ok (MAX_ROWS + 1) := by
  simp [execute_query, execute_duckdb, Except.map]

/-- C2 amended: only the Snowflake backend caps its result at `MAX_ROWS`
(via `fetchmany`); the mock DuckDB backend returns exactly as many rows as
the driver produced, with no cap. -/
theorem execute_query_row_caps {α : Type}
    (duck : String → Except String (List String × List (List α)))
    (snow : String → Except String (List (List (String × α))))
    (sql : String) :
    (∀ rows, execute_query false duck snow sql = .ok rows →
      rows.length ≤ MAX_ROWS) ∧
    (∀ cols rawRows, duck sql = .ok (cols, rawRows) →
      execute_query true duck snow sql =
        .ok (rawRows.map (fun row => cols.zip row)) ∧
      (rawRows.map (fun row => cols.zip row)).length = rawRows.length) := by
  constructor
  · intro rows h
    unfold execute_query execute_snowflake at h
    cases hs : snow sql with
    | error e => rw [hs] at h; simp at h
    | ok rs =>
      rw [hs] at h
      simp at h
      rw [← h]
      exact List.length_take_le MAX_ROWS rs
  · intro cols rawRows h
    unfold execute_query execute_duckdb
    rw [h]
    simp

/-- Witness for the amended C2 at concrete backends. -/
theorem execute_query_row_caps_witness :
    ((List.replicate 700 ([("c", "v")] : List (String × String))).take MAX_ROWS).length
        ≤ MAX_ROWS ∧
    execute_query true (fun _ => .ok (["c"], [["v"], ["w"]]))
        (fun _ => .ok ([] : List (List (String × String)))) "SELECT c FROM t" =
      .ok [[("c", "v")], [("c", "w")]] := by
  constructor
  · exact (execute_query_row_caps
      (fun _ => .ok ([], []))
      (fun _ => .ok (List.replicate 700 ([("c", "v")] : List (String × String))))
      "SELECT c FROM t").1 _ rfl
  · exact ((execute_query_row_caps
      (fun _ => .ok (["c"], [["v"], ["w"]]))
      (fun _ => .ok ([] : List (List (String × String))))
      "SELECT c FROM t").2 ["c"] [["v"], ["w"]] rfl).1

/-! ## C3 — logging on every path (corrected) -/

/-- C3 counterexample: when a pipeline step fails with an exception that is
neither a `SQLValidationError` nor a `RuntimeError` (here the generation
step), the exception escapes the handler and no log record at all is
written, contradicting "exactly one log record on any failure". -/
theorem queryHandler_uncaught_no_log :
    queryHandler
      { demoOracles with
        generate := fun _ _ => .error (.other "embedding service down") } "q" =
      { outcome := .uncaught (.other "embedding service down"), logCalls := [],
        executorCalled := false, formatterCalled := false } := rfl

/-- C3 amended: `write_log` itself never raises (any sink failure is
swallowed), and the handler calls `write_log` exactly once — with the
stripped question and an error field matching the response — whenever the
pipeline either succeeds or fails with a validation or runtime error, but
zero times when some step raises any other exception, which then escapes. -/
theorem queryHandler_logging (o : Oracles) (q : String) :
    (∀ sink rec, write_log sink rec = .ok ()) ∧
    ((queryHandler o q).logCalls = [] ↔
      (queryHandler o q).outcome.isUncaught = true) ∧
    (∀ rec ∈ (queryHandler o q).logCalls,
      rec.question = pyStrip q ∧
      rec.error = (queryHandler o q).outcome.errDetail) ∧
    (queryHandler o q).logCalls.length ≤ 1 := by
  refine ⟨?_, ?_⟩
  · intro sink rec
    unfold write_log
    cases sink rec <;> rfl
  · unfold queryHandler
    cases hr : o.retrieve (pyStrip q) with
    | error e =>
      cases e <;>
        simp [hr, handleExc, HandlerOutcome.isUncaught, HandlerOutcome.errDetail]
    | ok ctx =>
      cases hg : o.generate (pyStrip q) ctx with
      | error e =>
        cases e <;>
          simp [hr, hg, handleExc, HandlerOutcome.isUncaught,
            HandlerOutcome.errDetail]
      | ok raw =>
        cases hv : validate_sql raw with
        | error m =>
          simp [hr, hg, hv, handleExc, HandlerOutcome.isUncaught,
            HandlerOutcome.errDetail]
        | ok safe =>
          cases he : o.execute safe with
          | error e =>
            cases e <;>
              simp [hr, hg, hv, he, handleExc, HandlerOutcome.isUncaught,
                HandlerOutcome.errDetail]
          | ok results =>
            cases hf : o.format (pyStrip q) safe results with
            | error e =>
              cases e <;>
                simp [hr, hg, hv, he, hf, handleExc, HandlerOutcome.isUncaught,
                  HandlerOutcome.errDetail]
            | ok answer =>
              simp [hr, hg, hv, he, hf, HandlerOutcome.isUncaught,
                HandlerOutcome.errDetail]

/-- Witness for the amended C3 at a concrete sink and oracle set. -/
theorem queryHandler_logging_witness :
    write_log (fun _ => .error "disk full")
      { question := "demo", generated_sql := "", answer := "", row_count := 0,
        schema_tables_used := [], error := none } = .ok () ∧
    ((queryHandler demoOracles "demo").logCalls = [] ↔
      (queryHandler demoOracles "demo").outcome.isUncaught = true) ∧
    (queryHandler demoOracles "demo").logCalls.length ≤ 1 :=
  ⟨(queryHandler_logging demoOracles "demo").1 _ _,
   (queryHandler_logging demoOracles "demo").2.1,
   (queryHandler_logging demoOracles "demo").2.2.2⟩

/-! ## C9 — validation failure short-circuits the pipeline (confirmed) -/

/-- C9: when the generated SQL fails validation, the handler answers HTTP 422
with the validator's message, the executor and the formatter are never
invoked, and the single log record carries the error text, the fields
populated before the failure, and `row_count = 0`. -/
theorem queryHandler_validation_failure (o : Oracles) (q ctx raw m : String)
    (h1 : o.retrieve (pyStrip q) = .ok ctx)
    (h2 : o.generate (pyStrip q) ctx = .ok raw)
    (h3 : validate_sql raw = .error m) :
    queryHandler o q =
      { outcome := .httpError 422 m,
        logCalls := [{ question := pyStrip q, generated_sql := raw, answer := "",
                       row_count := 0, schema_tables_used := extractTables ctx,
                       error := some m }],
        executorCalled := false, formatterCalled := false } := by
  unfold queryHandler
  simp only [h1, h2, h3, handleExc]

/-- Witness for C9: a generated query carrying a standalone DROP is rejected
naming DROP, nothing is executed or formatted, and the one log record has
the error and zero rows. -/
theorem queryHandler_validation_failure_witness :
    queryHandler
      { demoOracles with
        generate := fun _ _ => .ok "SELECT 1; DROP TABLE users" } "how many users" =
      { outcome := .httpError 422 (blockedMsg "DROP"),
        logCalls := [{ question := "how many users",
                       generated_sql := "SELECT 1; DROP TABLE users", answer := "",
                       row_count := 0, schema_tables_used := ["users"],
                       error := some (blockedMsg "DROP") }],
        executorCalled := false, formatterCalled := false } := by
  rw [queryHandler_validation_failure _ "how many users" "Table: users"
    "SELECT 1; DROP TABLE users" (blockedMsg "DROP") rfl rfl rfl]
  rfl

/-! ## C7 — sentinel handling (confirmed) -/

theorem cannotAnswerMsg_ne_allowMsg (k : String) : cannotAnswerMsg ≠ allowMsg k := by
  intro h
  have h2 : cannotAnswerMsg.toList.head? = (allowMsg k).toList.head? := by rw [h]
  have h3 : (allowMsg k).toList.head? = some 'O' := by
    unfold allowMsg
    rw [str_toList_append, str_toList_append]
    rw [show ("Only SELECT queries are permitted. ").toList =
      'O' :: ("nly SELECT queries are permitted. ").toList from rfl]
    simp
  rw [h3, show cannotAnswerMsg.toList.head? = some 'T' from rfl] at h2
  simp at h2

/-- C7: any input whose stripped, upper-cased text equals the sentinel
CANNOT_ANSWER fails validation with the specific rephrase-guidance message,
which differs from the generic allowlist message whatever leading keyword
the latter reports. -/
theorem validate_sql_sentinel (s : String) (m : Nat)
    (h : pyUpper (pyStrip s) = "CANNOT_ANSWER") :
    validate_sql s m = .error cannotAnswerMsg ∧
    ∀ k, cannotAnswerMsg ≠ allowMsg k := by
  refine ⟨?_, cannotAnswerMsg_ne_allowMsg⟩
  have hne : pySplitL s.toList ≠ [] := by
    intro hnil
    rw [pySplitL_eq_nil] at hnil
    have hdw : s.toList.dropWhile pyIsSpace = [] :=
      List.dropWhile_eq_nil_iff.mpr hnil
    have hstrip : pyStrip s = "" := by
      unfold pyStrip stripL
      rw [hdw]
      rfl
    rw [hstrip] at h
    exact absurd h (by decide)
  obtain ⟨t, ts, hts⟩ := List.exists_cons_of_ne_nil hne
  unfold validate_sql
  rw [hts]
  simp only [h, if_pos]

/-- Witness for C7 at a concrete sentinel-shaped input. -/
theorem validate_sql_sentinel_witness :
    pyUpper (pyStrip "  cannot_answer  ") = "CANNOT_ANSWER" ∧
    validate_sql "  cannot_answer  " 7 = .error cannotAnswerMsg :=
  ⟨rfl, (validate_sql_sentinel "  cannot_answer  " 7 rfl).1⟩

/-! ## C8 — chunking invariant of the schema indexer (confirmed) -/

theorem isSubstr_colLine (c : SchemaColumn) : IsSubstr c.name (colLine c) := by
  refine ⟨"  - ", " (" ++ (c.type ++ ("): " ++ c.description)), ?_⟩
  unfold colLine
  simp only [str_append_assoc]

theorem isSubstr_joinNL (x : String) (xs : List String) (hx : x ∈ xs) :
    IsSubstr x (joinNL xs) := by
  induction xs with
  | nil => cases hx
  | cons y ys ih =>
    rcases List.mem_cons.mp hx with rfl | hmem
    · cases ys with
      | nil =>
        refine ⟨"", "", ?_⟩
        rw [str_append_nil, str_nil_append]
        rfl
      | cons z zs =>
        refine ⟨"", "\n" ++ joinNL (z :: zs), ?_⟩
        rw [str_nil_append, ← str_append_assoc]
        rfl
    · have hys : ys ≠ [] := List.ne_nil_of_mem hmem
      obtain ⟨z, zs, rfl⟩ := List.exists_cons_of_ne_nil hys
      have hext : IsSubstr x (y ++ ("\n" ++ joinNL (z :: zs))) :=
        isSubstr_extend_left _ _ _ (isSubstr_extend_left _ _ _ (ih hmem))
      rw [show joinNL (y :: z :: zs) = y ++ "\n" ++ joinNL (z :: zs) from rfl,
        str_append_assoc]
      exact hext

theorem isSubstr_chunkText (m : SchemaModel) (c : SchemaColumn)
    (hc : c ∈ m.columns) : IsSubstr c.name (chunkText m) := by
  have h1 := isSubstr_colLine c
  have h2 := isSubstr_joinNL (colLine c) (m.columns.map colLine)
    (List.mem_map_of_mem _ hc)
  have h3 : IsSubstr (joinNL (m.columns.map colLine)) (chunkText m) := by
    unfold chunkText
    refine isSubstr_extend_right _ _ _ (isSubstr_extend_right _ _ _ ?_)
    refine isSubstr_extend_right _ _ _ ?_
    exact ⟨"Table: " ++ m.name ++ "\n" ++ "Description: " ++ m.description ++
      "\n" ++ "Columns:\n", "", by rw [str_append_nil]⟩
  exact isSubstr_trans _ _ _ (isSubstr_trans _ _ _ h1 h2) h3

/-- C8: for a schema document with K tables the indexer produces exactly K
chunks, the i-th chunk's id is the i-th table's name, and the i-th chunk's
text contains every one of that table's column names as a substring. -/
theorem loadSchema_chunking (models : List SchemaModel) :
    (loadSchema models).length = models.length ∧
    ∀ (i : Nat) (h : i < models.length),
      ((loadSchema models).get ⟨i, by simpa [loadSchema] using h⟩).id =
        (models.get ⟨i, h⟩).name ∧
      ∀ c ∈ (models.get ⟨i, h⟩).columns,
        IsSubstr c.name ((loadSchema models).get ⟨i, by simpa [loadSchema] using h⟩).text := by
  refine ⟨by simp [loadSchema], ?_⟩
  intro i h
  constructor
  · simp [loadSchema]
  · intro c hc
    simp only [loadSchema, List.get_eq_getElem, List.getElem_map]
    exact isSubstr_chunkText _ _ hc

/-- Witness for C8 on a concrete one-table schema document. -/
theorem loadSchema_chunking_witness :
    (loadSchema [demoModel]).length = 1 ∧
    ((loadSchema [demoModel]).get ⟨0, by decide⟩).id = "users" ∧
    IsSubstr "region" ((loadSchema [demoModel]).get ⟨0, by decide⟩).text := by
  obtain ⟨h1, h2⟩ := loadSchema_chunking [demoModel]
  refine ⟨h1, (h2 0 (by decide)).1, ?_⟩
  exact (h2 0 (by decide)).2
    { name := "region", type := "VARCHAR", description := "home region" }
    (by simp [demoModel])

/-! ## Split/join roundtrip lemmas

`pySplitL` tokens are non-empty and whitespace-free, and splitting the
space-join of such tokens returns them unchanged. -/

theorem splitAux_sep (b : List Char) (c : Char) (hc : pyIsSpace c = true) :
    ∀ (a acc : List Char),
      splitAux (a ++ c :: b) acc = splitAux a acc ++ splitAux b [] := by
  intro a
  induction a with
  | nil =>
    intro acc
    by_cases h : acc = [] <;> simp [splitAux, hc, h]
  | cons x xs ih =>
    intro acc
    by_cases hx : pyIsSpace x
    · by_cases h : acc = [] <;> simp [splitAux, hx, h, ih]
    · simp [splitAux, hx, ih]

theorem splitAux_token (t : List Char) (ht : ∀ c ∈ t, pyIsSpace c = false) :
    ∀ (r acc : List Char), splitAux (t ++ r) acc = splitAux r (t.reverse ++ acc) := by
  induction t with
  | nil => intro r acc; simp
  | cons x xs ih =>
    intro r acc
    have hx : pyIsSpace x = false := ht x (by simp)
    have ih2 := ih (fun c hc => ht c (by simp [hc])) r (x :: acc)
    simp only [List.cons_append, splitAux, hx, Bool.false_eq_true, if_false,
      List.reverse_cons, List.append_assoc, List.singleton_append]
    exact ih2

theorem pySplitL_single (t : List Char) (hne : t ≠ [])
    (ht : ∀ c ∈ t, pyIsSpace c = false) : pySplitL t = [t] := by
  unfold pySplitL
  have := splitAux_token t ht [] []
  simp only [List.append_nil] at this
  rw [this]
  simp [splitAux, hne]

theorem pySplitL_join (toks : List (List Char))
    (h : ∀ t ∈ toks, t ≠ [] ∧ ∀ c ∈ t, pyIsSpace c = false) :
    pySplitL (joinSep toks) = toks := by
  induction toks with
  | nil => rfl
  | cons t ts ih =>
    cases ts with
    | nil =>
      exact pySplitL_single t (h t (by simp)).1 (h t (by simp)).2
    | cons t2 ts2 =>
      have hjoin : joinSep (t :: t2 :: ts2) = t ++ ' ' :: joinSep (t2 :: ts2) := rfl
      rw [hjoin]
      unfold pySplitL
      rw [splitAux_sep (joinSep (t2 :: ts2)) ' ' (by decide) t []]
      have h1 : splitAux t [] = [t] :=
        pySplitL_single t (h t (by simp)).1 (h t (by simp)).2
      rw [h1]
      have h2 : splitAux (joinSep (t2 :: ts2)) [] = t2 :: ts2 :=
        ih (fun u hu => h u (by simp [hu]))
      rw [h2]
      rfl

theorem splitAux_tokens (l : List Char) :
    ∀ acc, (∀ c ∈ acc, pyIsSpace c = false) →
      ∀ t ∈ splitAux l acc, t ≠ [] ∧ ∀ c ∈ t, pyIsSpace c = false := by
  induction l with
  | nil =>
    intro acc hacc t ht
    by_cases h : acc = []
    · simp [splitAux, h] at ht
    · simp [splitAux, h] at ht
      subst ht
      refine ⟨by simpa using h, ?_⟩
      intro c hc
      exact hacc c (by simpa using hc)
  | cons x xs ih =>
    intro acc hacc t ht
    by_cases hx : pyIsSpace x
    · by_cases h : acc = []
      · rw [h] at ht
        simp only [splitAux, hx, if_true, if_pos rfl] at ht
        exact ih [] (by simp) t ht
      · simp only [splitAux, hx, if_true, h, if_neg h] at ht
        rcases List.mem_cons.mp ht with rfl | hmem
        · refine ⟨by simpa using h, ?_⟩
          intro c hc
          exact hacc c (by simpa using hc)
        · exact ih [] (by simp) t hmem
    · simp only [splitAux, hx, Bool.false_eq_true, if_false] at ht
      refine ih (x :: acc) ?_ t ht
      intro c hc
      rcases List.mem_cons.mp hc with rfl | hmem
      · simpa using hx
      · exact hacc c hmem

theorem pySplitL_tokens (l : List Char) :
    ∀ t ∈ pySplitL l, t ≠ [] ∧ ∀ c ∈ t, pyIsSpace c = false :=
  splitAux_tokens l [] (by simp)

theorem pySplitL_normaliseL (l : List Char) :
    pySplitL (normaliseL l) = pySplitL l :=
  pySplitL_join (pySplitL l) (pySplitL_tokens l)

/-! ## Strip and character lemmas -/

theorem dropWhile_eq_self_of_head (p : Char → Bool) (l : List Char)
    (h : ∀ c, l.head? = some c → p c = false) : l.dropWhile p = l := by
  cases l with
  | nil => rfl
  | cons x xs => simp [List.dropWhile_cons, h x rfl]

theorem rstripP_eq_self (p : Char → Bool) (l : List Char)
    (h : ∀ c, l.reverse.head? = some c → p c = false) : rstripP p l = l := by
  unfold rstripP
  rw [dropWhile_eq_self_of_head p l.reverse h, List.reverse_reverse]

theorem rstripP_decomp (p : Char → Bool) (l : List Char) :
    ∃ r, l = rstripP p l ++ r ∧ ∀ c ∈ r, p c = true := by
  refine ⟨(l.reverse.takeWhile p).reverse, ?_, ?_⟩
  · unfold rstripP
    have := List.takeWhile_append_dropWhile (p := p) (l := l.reverse)
    calc l = l.reverse.reverse := (List.reverse_reverse l).symm
    _ = (l.reverse.takeWhile p ++ l.reverse.dropWhile p).reverse := by rw [this]
    _ = (l.reverse.dropWhile p).reverse ++ (l.reverse.takeWhile p).reverse := by
          rw [List.reverse_append]
  · intro c hc
    exact List.mem_takeWhile_imp (List.mem_reverse.mp hc)

theorem stripL_eq_self (l : List Char)
    (h1 : ∀ c, l.head? = some c → pyIsSpace c = false)
    (h2 : ∀ c, l.reverse.head? = some c → pyIsSpace c = false) : stripL l = l := by
  unfold stripL
  rw [dropWhile_eq_self_of_head pyIsSpace l h1]
  exact rstripP_eq_self pyIsSpace l h2

theorem pyIsSpace_cases (c : Char) (h : pyIsSpace c = true) :
    c = ' ' ∨ c = '\t' ∨ c = '\n' ∨ c = '\r' ∨
    c = Char.ofNat 11 ∨ c = Char.ofNat 12 := by
  have := h
  simp only [pyIsSpace, Bool.or_eq_true, beq_iff_eq] at this
  tauto

theorem isWordChar_of_space (c : Char) (h : pyIsSpace c = true) :
    isWordChar c = false := by
  rcases pyIsSpace_cases c h with rfl | rfl | rfl | rfl | rfl | rfl <;> decide

theorem toUpper_of_space (c : Char) (h : pyIsSpace c = true) :
    c.toUpper = c := by
  rcases pyIsSpace_cases c h with rfl | rfl | rfl | rfl | rfl | rfl <;> decide

theorem toUpper_in_allow_chars (c u : Char) (h : c.toUpper = u)
    (hu : u ∈ "SELECTWITH".toList) : pyIsSpace c = false ∧ c ≠ ';' := by
  constructor
  · by_contra hsp
    have hsp' : pyIsSpace c = true := by
      revert hsp
      cases pyIsSpace c <;> simp
    rw [toUpper_of_space c hsp'] at h
    subst h
    rcases pyIsSpace_cases c hsp' with rfl | rfl | rfl | rfl | rfl | rfl <;>
      exact absurd hu (by decide)
  · rintro rfl
    rw [show (';').toUpper = ';' from by decide] at h
    subst h
    exact absurd hu (by decide)

theorem digitChar_mem (m : Nat) (h : m < 10) :
    Nat.digitChar m ∈ "0123456789".toList := by
  interval_cases m <;> decide

theorem toDigitsCore_mem : ∀ (fuel n : Nat) (acc : List Char),
    (∀ c ∈ acc, c ∈ "0123456789".toList) →
    ∀ c ∈ Nat.toDigitsCore 10 fuel n acc, c ∈ "0123456789".toList := by
  intro fuel
  induction fuel with
  | zero => intro n acc hacc; exact hacc
  | succ f ih =>
    intro n acc hacc c hc
    simp only [Nat.toDigitsCore] at hc
    by_cases hdiv : n / 10 = 0
    · rw [if_pos hdiv] at hc
      rcases List.mem_cons.mp hc with rfl | hmem
      · exact digitChar_mem _ (Nat.mod_lt _ (by omega))
      · exact hacc c hmem
    · rw [if_neg hdiv] at hc
      refine ih (n / 10) _ ?_ c hc
      intro d hd
      rcases List.mem_cons.mp hd with rfl | hmem
      · exact digitChar_mem _ (Nat.mod_lt _ (by omega))
      · exact hacc d hmem

theorem toDigitsCore_acc_nil : ∀ (fuel n : Nat) (acc : List Char),
    Nat.toDigitsCore 10 fuel n acc = [] → acc = [] := by
  intro fuel
  induction fuel with
  | zero => intro n acc h; exact h
  | succ f ih =>
    intro n acc h
    simp only [Nat.toDigitsCore] at h
    by_cases hdiv : n / 10 = 0
    · rw [if_pos hdiv] at h
      cases h
    · rw [if_neg hdiv] at h
      have := ih (n / 10) _ h
      cases this

theorem repr_toList_mem (n : Nat) :
    ∀ c ∈ (Nat.repr n).toList, c ∈ "0123456789".toList := by
  intro c hc
  have : (Nat.repr n).toList = Nat.toDigits 10 n := rfl
  rw [this] at hc
  exact toDigitsCore_mem (n + 1) n [] (by simp) c hc

theorem repr_toList_ne_nil (n : Nat) : (Nat.repr n).toList ≠ [] := by
  intro h
  have : Nat.toDigits 10 n = [] := h
  unfold Nat.toDigits at this
  simp only [Nat.toDigitsCore] at this
  by_cases hdiv : n / 10 = 0
  · rw [if_pos hdiv] at this
    cases this
  · rw [if_neg hdiv] at this
    have := toDigitsCore_acc_nil n (n / 10) _ this
    cases this

theorem digit_props (c : Char) (h : c ∈ "0123456789".toList) :
    c.toUpper = c ∧ isWordChar c = true ∧ pyIsSpace c = false ∧ c.isDigit = true := by
  fin_cases h <;> exact ⟨by decide, by decide, by decide, by decide⟩

theorem letter_ne_digit :
    ∀ a ∈ "ABCDEFGHIJKLMNOPQRSTUVWXYZ".toList,
    ∀ d ∈ "0123456789".toList, a ≠ d := by decide

/-! ## Structure of `joinSep` and its interaction with right-stripping -/

theorem head?_append_left {α : Type} (l₁ l₂ : List α) (h : l₁ ≠ []) :
    (l₁ ++ l₂).head? = l₁.head? := by
  cases l₁ with
  | nil => exact absurd rfl h
  | cons x xs => rfl

theorem joinSep_cons (t : List Char) (t2 : List Char) (ts : List (List Char)) :
    joinSep (t :: t2 :: ts) = t ++ ' ' :: joinSep (t2 :: ts) := rfl

theorem joinSep_append (xs ys : List (List Char)) (hx : xs ≠ []) (hy : ys ≠ []) :
    joinSep (xs ++ ys) = joinSep xs ++ ' ' :: joinSep ys := by
  induction xs with
  | nil => exact absurd rfl hx
  | cons x xs ih =>
    cases xs with
    | nil =>
      obtain ⟨y, ys2, rfl⟩ := List.exists_cons_of_ne_nil hy
      rfl
    | cons x2 xs2 =>
      calc joinSep ((x :: x2 :: xs2) ++ ys)
          = x ++ ' ' :: joinSep ((x2 :: xs2) ++ ys) := rfl
        _ = x ++ ' ' :: (joinSep (x2 :: xs2) ++ ' ' :: joinSep ys) := by
            rw [ih (by simp)]
        _ = (x ++ ' ' :: joinSep (x2 :: xs2)) ++ ' ' :: joinSep ys := by
            rw [List.append_assoc]
            rfl
        _ = joinSep (x :: x2 :: xs2) ++ ' ' :: joinSep ys := by rw [joinSep_cons]

theorem revhead?_append {α : Type} (l₁ l₂ : List α) (h : l₂ ≠ []) :
    (l₁ ++ l₂).reverse.head? = l₂.reverse.head? := by
  rw [List.reverse_append]
  exact head?_append_left _ _ (by simpa using h)

theorem joinSep_head? (t : List Char) (ts : List (List Char)) (ht : t ≠ []) :
    (joinSep (t :: ts)).head? = t.head? := by
  cases ts with
  | nil => rfl
  | cons t2 ts2 =>
    rw [joinSep_cons]
    exact head?_append_left _ _ ht

theorem joinSep_revhead? (ds : List (List Char)) (lt : List Char) (hlt : lt ≠ []) :
    (joinSep (ds ++ [lt])).reverse.head? = lt.reverse.head? := by
  cases ds with
  | nil => rfl
  | cons d ds2 =>
    rw [joinSep_append (d :: ds2) [lt] (by simp) (by simp)]
    rw [revhead?_append _ _ (by simp)]
    show (' ' :: lt).reverse.head? = lt.reverse.head?
    rw [List.reverse_cons]
    exact head?_append_left _ _ (by simpa using hlt)

theorem rstripP_mem (p : Char → Bool) (l : List Char) :
    ∀ c ∈ rstripP p l, c ∈ l := by
  intro c hc
  unfold rstripP at hc
  rw [List.mem_reverse] at hc
  have := (List.dropWhile_sublist (p := p) (l := l.reverse)).subset hc
  exact List.mem_reverse.mp this

theorem rstripP_revhead (p : Char → Bool) (l : List Char)
    (h : rstripP p l ≠ []) :
    ∃ c, (rstripP p l).reverse.head? = some c ∧ c ∈ l ∧ p c = false := by
  unfold rstripP at *
  rw [List.reverse_reverse]
  cases hd : l.reverse.dropWhile p with
  | nil => rw [hd] at h; simp at h
  | cons c cs =>
    refine ⟨c, rfl, ?_, ?_⟩
    · have : c ∈ l.reverse.dropWhile p := by rw [hd]; simp
      have := (List.dropWhile_sublist (p := p) (l := l.reverse)).subset this
      exact List.mem_reverse.mp this
    · have := List.head?_dropWhile_not p l.reverse
      rw [hd] at this
      simpa using this

/-- How the two right-strips of the LIMIT-injection branch act on a
space-join: they truncate the last token to its semicolon-stripped form,
dropping it altogether (together with its separating space) when it
consisted only of semicolons. -/
theorem strip_joinSep (ds : List (List Char)) (lt : List Char)
    (hlt : lt ≠ [])
    (hds : ∀ t ∈ ds, t ≠ [] ∧ ∀ c ∈ t, pyIsSpace c = false)
    (hltc : ∀ c ∈ lt, pyIsSpace c = false)
    (hds_ne : ds = [] → rstripP (fun c => c == ';') lt ≠ []) :
    rstripP pyIsSpace (rstripP (fun c => c == ';') (joinSep (ds ++ [lt]))) =
      if rstripP (fun c => c == ';') lt = [] then joinSep ds
      else joinSep (ds ++ [rstripP (fun c => c == ';') lt]) := by
  cases ds with
  | nil =>
    have hne := hds_ne rfl
    rw [if_neg hne]
    show rstripP pyIsSpace (rstripP (fun c => c == ';') lt) =
      rstripP (fun c => c == ';') lt
    obtain ⟨c, hh, hmem, _⟩ := rstripP_revhead (fun c => c == ';') lt hne
    refine rstripP_eq_self _ _ ?_
    intro d hd
    rw [hh] at hd
    injection hd with hdc
    subst hdc
    exact hltc _ hmem
  | cons d0 ds2 =>
    have hds' : (d0 :: ds2 : List (List Char)) ≠ [] := by simp
    rw [joinSep_append (d0 :: ds2) [lt] hds' (by simp)]
    show rstripP pyIsSpace
      (rstripP (fun c => c == ';') (joinSep (d0 :: ds2) ++ ' ' :: lt)) = _
    have hJrev : ∀ c, (joinSep (d0 :: ds2)).reverse.head? = some c →
        pyIsSpace c = false := by
      intro c hc
      have hne2 : (d0 :: ds2 : List (List Char)) ≠ [] := by simp
      have hlast : (d0 :: ds2).getLast hne2 ∈ (d0 :: ds2 : List (List Char)) :=
        List.getLast_mem _
      have hgl := joinSep_revhead? ((d0 :: ds2).dropLast) ((d0 :: ds2).getLast hne2)
        (hds _ hlast).1
      rw [List.dropLast_append_getLast] at hgl
      rw [hgl] at hc
      have hcmem : c ∈ ((d0 :: ds2).getLast hne2).reverse :=
        List.mem_of_mem_head? hc
      rw [List.mem_reverse] at hcmem
      exact (hds _ hlast).2 c hcmem
    have hrev1 : (joinSep (d0 :: ds2) ++ ' ' :: lt).reverse =
        lt.reverse ++ (' ' :: (joinSep (d0 :: ds2)).reverse) := by
      rw [List.reverse_append]
      simp
    by_cases hsemi : rstripP (fun c => c == ';') lt = []
    · rw [if_pos hsemi]
      have hdw : lt.reverse.dropWhile (fun c => c == ';') = [] := by
        have := hsemi
        unfold rstripP at this
        simpa using this
      have hstep1 : rstripP (fun c => c == ';')
          (joinSep (d0 :: ds2) ++ ' ' :: lt) = joinSep (d0 :: ds2) ++ [' '] := by
        unfold rstripP
        rw [hrev1, List.dropWhile_append, hdw]
        simp only [List.isEmpty_nil, if_true]
        rw [show List.dropWhile (fun c => c == ';')
            (' ' :: (joinSep (d0 :: ds2)).reverse) =
            ' ' :: (joinSep (d0 :: ds2)).reverse from by
          rw [List.dropWhile_cons]
          simp]
        rw [List.reverse_cons, List.reverse_reverse]
      rw [hstep1]
      have hstep2 : rstripP pyIsSpace (joinSep (d0 :: ds2) ++ [' ']) =
          joinSep (d0 :: ds2) := by
        unfold rstripP
        rw [List.reverse_append]
        simp only [List.reverse_cons, List.reverse_nil, List.nil_append,
          List.singleton_append]
        rw [show List.dropWhile pyIsSpace (' ' :: (joinSep (d0 :: ds2)).reverse) =
            List.dropWhile pyIsSpace (joinSep (d0 :: ds2)).reverse from by
          rw [List.dropWhile_cons]
          simp [pyIsSpace]]
        rw [dropWhile_eq_self_of_head pyIsSpace _ hJrev, List.reverse_reverse]
      rw [hstep2]
    · rw [if_neg hsemi]
      have hdw : lt.reverse.dropWhile (fun c => c == ';') ≠ [] := by
        intro hx
        apply hsemi
        unfold rstripP
        rw [hx]
        rfl
      have hstep1 : rstripP (fun c => c == ';')
          (joinSep (d0 :: ds2) ++ ' ' :: lt) =
          joinSep (d0 :: ds2) ++ ' ' :: rstripP (fun c => c == ';') lt := by
        unfold rstripP
        rw [hrev1, List.dropWhile_append]
        rw [if_neg (by simpa using hdw)]
        rw [List.reverse_append, List.reverse_cons, List.reverse_reverse]
        rw [List.append_assoc]
        rfl
      rw [hstep1]
      obtain ⟨c, hh, hmem, _⟩ := rstripP_revhead (fun c => c == ';') lt hsemi
      have hstep2 : rstripP pyIsSpace
          (joinSep (d0 :: ds2) ++ ' ' :: rstripP (fun c => c == ';') lt) =
          joinSep (d0 :: ds2) ++ ' ' :: rstripP (fun c => c == ';') lt := by
        refine rstripP_eq_self _ _ ?_
        intro e he
        rw [revhead?_append _ _ (by simp)] at he
        rw [List.reverse_cons] at he
        rw [head?_append_left _ _ (by simpa using hsemi)] at he
        rw [hh] at he
        injection he with hec
        subst hec
        exact hltc _ hmem
      rw [hstep2]
      rw [joinSep_append (d0 :: ds2) [rstripP (fun c => c == ';') lt] hds' (by simp)]
      rfl

/-! ## Indexing helpers for the word-boundary search -/

theorem get?_append_lt {α : Type} (l₁ l₂ : List α) (n : Nat) (h : n < l₁.length) :
    (l₁ ++ l₂).get? n = l₁.get? n := by
  induction l₁ generalizing n with
  | nil => simp at h
  | cons x xs ih =>
    cases n with
    | zero => rfl
    | succ m =>
      have hm : m < xs.length := by
        simp only [List.length_cons] at h
        omega
      exact ih m hm

theorem get?_append_ge {α : Type} (l₁ l₂ : List α) (n : Nat) (h : l₁.length ≤ n) :
    (l₁ ++ l₂).get? n = l₂.get? (n - l₁.length) := by
  induction l₁ generalizing n with
  | nil => simp
  | cons x xs ih =>
    cases n with
    | zero => simp at h
    | succ m =>
      have hm : xs.length ≤ m := by
        simp only [List.length_cons] at h
        omega
      have := ih m hm
      simpa [Nat.succ_sub_succ] using this

theorem drop_append_le {α : Type} (l₁ l₂ : List α) (n : Nat) (h : n ≤ l₁.length) :
    (l₁ ++ l₂).drop n = l₁.drop n ++ l₂ := by
  induction l₁ generalizing n with
  | nil =>
    have : n = 0 := by simpa using h
    simp [this]
  | cons x xs ih =>
    cases n with
    | zero => rfl
    | succ m =>
      have hm : m ≤ xs.length := by
        simp only [List.length_cons] at h
        omega
      exact ih m hm

theorem drop_append_ge {α : Type} (l₁ l₂ : List α) (n : Nat) (h : l₁.length ≤ n) :
    (l₁ ++ l₂).drop n = l₂.drop (n - l₁.length) := by
  induction l₁ generalizing n with
  | nil => simp
  | cons x xs ih =>
    cases n with
    | zero => simp at h
    | succ m =>
      have hm : xs.length ≤ m := by
        simp only [List.length_cons] at h
        omega
      have := ih m hm
      simpa [Nat.succ_sub_succ] using this

theorem take_append_le {α : Type} (l₁ l₂ : List α) (n : Nat) (h : n ≤ l₁.length) :
    (l₁ ++ l₂).take n = l₁.take n := by
  induction l₁ generalizing n with
  | nil =>
    have : n = 0 := by simpa using h
    simp [this]
  | cons x xs ih =>
    cases n with
    | zero => rfl
    | succ m =>
      have hm : m ≤ xs.length := by
        simp only [List.length_cons] at h
        omega
      have := ih m hm
      simp only [List.cons_append, List.take_succ_cons, this]

theorem get?_drop' {α : Type} (l : List α) (n m : Nat) :
    (l.drop n).get? m = l.get? (n + m) := by
  induction l generalizing n with
  | nil => simp
  | cons x xs ih =>
    cases n with
    | zero => simp
    | succ k =>
      rw [List.drop_succ_cons, ih k, Nat.succ_add]
      rfl

theorem isPrefixOf_iff_take (kw l : List Char) :
    kw.isPrefixOf l = true ↔ l.take kw.length = kw := by
  rw [List.isPrefixOf_iff_prefix]
  constructor
  · intro h
    exact (List.prefix_iff_eq_take.mp h).symm
  · intro h
    exact List.prefix_iff_eq_take.mpr h.symm

theorem prefix_get? (kw m : List Char) (h : kw.isPrefixOf m = true) (j : Nat)
    (hj : j < kw.length) : m.get? j = kw.get? j := by
  obtain ⟨t, ht⟩ := List.isPrefixOf_iff_prefix.mp h
  rw [← ht]
  exact get?_append_lt kw t j hj

theorem isPrefixOf_append_indep (kw a b c : List Char) (h : kw.length ≤ a.length)
    (hab : kw.isPrefixOf (a ++ b) = true) : kw.isPrefixOf (a ++ c) = true := by
  rw [isPrefixOf_iff_take] at hab ⊢
  rw [take_append_le _ _ _ h] at hab ⊢
  exact hab

theorem wbSearch_exists (pat s : List Char) :
    wbSearch pat s = true ↔ ∃ i, i ≤ s.length ∧ wbMatchAt pat s i = true := by
  unfold wbSearch
  rw [List.any_eq_true]
  constructor
  · rintro ⟨i, hi, hm⟩
    rw [List.mem_range] at hi
    exact ⟨i, by omega, hm⟩
  · rintro ⟨i, hi, hm⟩
    exact ⟨i, List.mem_range.mpr (by omega), hm⟩

/-! ## Decidable facts about the blocked keywords -/

theorem blocked_kw_len2 : ∀ kw ∈ BLOCKED_KEYWORDS, 2 ≤ kw.length := by decide

theorem blocked_kw_headD : ∀ kw ∈ BLOCKED_KEYWORDS,
    kw.headD '0' ∈ "ABCDEFGHIJKLMNOPQRSTUVWXYZ".toList := by decide

theorem blocked_kw_pairs : ∀ kw ∈ BLOCKED_KEYWORDS,
    kw.take 2 ∉ [[' ', 'L'], ['L', 'I'], ['I', 'M'], ['M', 'I'], ['I', 'T'],
      ['T', ' ']] := by decide

theorem blocked_kw_space : ∀ kw ∈ BLOCKED_KEYWORDS, ∀ j, j < kw.length →
    kw.get? j = some ' ' → kw = "COPY INTO".toList ∧ j = 4 := by decide

/-- No blocked keyword matches as a prefix anywhere inside the appended
region, a space, the five letters of LIMIT, a space, and a digit string. -/
theorem no_kw_in_tail (kw : List Char) (hkw : kw ∈ BLOCKED_KEYWORDS) (k : Nat)
    (D : List Char) (hD : ∀ c ∈ D, c ∈ "0123456789".toList) :
    kw.isPrefixOf ((' ' :: 'L' :: 'I' :: 'M' :: 'I' :: 'T' :: ' ' :: D).drop k)
      = false := by
  have hkw2 := blocked_kw_len2 kw hkw
  obtain ⟨c0, kw1, rfl⟩ : ∃ c0 kw1, kw = c0 :: kw1 := by
    cases kw with
    | nil => simp at hkw2
    | cons a b => exact ⟨a, b, rfl⟩
  obtain ⟨c1, kw2, rfl⟩ : ∃ c1 kw2, kw1 = c1 :: kw2 := by
    cases kw1 with
    | nil => simp at hkw2
    | cons a b => exact ⟨a, b, rfl⟩
  by_contra hx
  have h : (c0 :: c1 :: kw2).isPrefixOf
      ((' ' :: 'L' :: 'I' :: 'M' :: 'I' :: 'T' :: ' ' :: D).drop k) = true := by
    revert hx
    cases (c0 :: c1 :: kw2).isPrefixOf
      ((' ' :: 'L' :: 'I' :: 'M' :: 'I' :: 'T' :: ' ' :: D).drop k) <;> simp
  clear hx
  have hpairs := blocked_kw_pairs _ hkw
  rcases k with _ | _ | _ | _ | _ | _ | _ | k
  · simp only [List.drop_zero, List.isPrefixOf, Bool.and_eq_true, beq_iff_eq] at h
    obtain ⟨rfl, rfl, -⟩ := h
    apply hpairs
    simp only [List.take_succ_cons, List.take_zero]
    decide
  · simp only [List.drop_succ_cons, List.drop_zero, List.isPrefixOf,
      Bool.and_eq_true, beq_iff_eq] at h
    obtain ⟨rfl, rfl, -⟩ := h
    apply hpairs
    simp only [List.take_succ_cons, List.take_zero]
    decide
  · simp only [List.drop_succ_cons, List.drop_zero, List.isPrefixOf,
      Bool.and_eq_true, beq_iff_eq] at h
    obtain ⟨rfl, rfl, -⟩ := h
    apply hpairs
    simp only [List.take_succ_cons, List.take_zero]
    decide
  · simp only [List.drop_succ_cons, List.drop_zero, List.isPrefixOf,
      Bool.and_eq_true, beq_iff_eq] at h
    obtain ⟨rfl, rfl, -⟩ := h
    apply hpairs
    simp only [List.take_succ_cons, List.take_zero]
    decide
  · simp only [List.drop_succ_cons, List.drop_zero, List.isPrefixOf,
      Bool.and_eq_true, beq_iff_eq] at h
    obtain ⟨rfl, rfl, -⟩ := h
    apply hpairs
    simp only [List.take_succ_cons, List.take_zero]
    decide
  · simp only [List.drop_succ_cons, List.drop_zero, List.isPrefixOf,
      Bool.and_eq_true, beq_iff_eq] at h
    obtain ⟨rfl, rfl, -⟩ := h
    apply hpairs
    simp only [List.take_succ_cons, List.take_zero]
    decide
  · -- k = 6: the remaining region starts with the second space
    simp only [List.drop_succ_cons, List.drop_zero, List.isPrefixOf,
      Bool.and_eq_true, beq_iff_eq] at h
    obtain ⟨rfl, -⟩ := h
    have := blocked_kw_headD _ hkw
    simp at this
  · -- k ≥ 7: inside the digit region
    have hdrop : (' ' :: 'L' :: 'I' :: 'M' :: 'I' :: 'T' :: ' ' :: D).drop (k + 7)
        = D.drop k := by
      simp [List.drop_succ_cons, Nat.add_comm]
    rw [hdrop] at h
    cases hDk : D.drop k with
    | nil =>
      rw [hDk] at h
      simp [List.isPrefixOf] at h
    | cons d ds =>
      rw [hDk] at h
      simp only [List.isPrefixOf, Bool.and_eq_true, beq_iff_eq] at h
      obtain ⟨rfl, -⟩ := h
      have hdmem : c0 ∈ D := by
        have : c0 ∈ D.drop k := by rw [hDk]; simp
        exact List.drop_subset _ _ this
      have hdigit := hD c0 hdmem
      have hletter := blocked_kw_headD _ hkw
      simp only [List.headD_cons] at hletter
      exact letter_ne_digit c0 hletter c0 hdigit rfl

/-- Stability of a failed blocklist scan under the LIMIT-appending edit: if a
blocked keyword has no word-boundary match in `P ++ R` — where `R` (the
stripped-away semicolons and whitespace) consists of non-word characters —
then it has none in `P` followed by the appended region either. -/
theorem wbSearch_stable (kw : List Char) (hkw : kw ∈ BLOCKED_KEYWORDS)
    (P R D : List Char)
    (hR : ∀ c ∈ R, isWordChar c = false)
    (hD : ∀ c ∈ D, c ∈ "0123456789".toList)
    (hno : wbSearch kw (P ++ R) = false) :
    wbSearch kw (P ++ (' ' :: 'L' :: 'I' :: 'M' :: 'I' :: 'T' :: ' ' :: D))
      = false := by
  set T : List Char := ' ' :: 'L' :: 'I' :: 'M' :: 'I' :: 'T' :: ' ' :: D with hT
  by_contra hx
  have hx' : wbSearch kw (P ++ T) = true := by
    revert hx
    cases wbSearch kw (P ++ T) <;> simp
  clear hx
  rw [wbSearch_exists] at hx'
  obtain ⟨i, hi, hm⟩ := hx'
  have hkw2 := blocked_kw_len2 kw hkw
  unfold wbMatchAt at hm
  simp only [Bool.and_eq_true, bne_iff_ne, ne_eq] at hm
  obtain ⟨⟨hpre, hbL⟩, hbR⟩ := hm
  rcases Nat.lt_or_ge i P.length with hiP | hiP
  · rcases le_or_lt (i + kw.length) P.length with hend | hend
    · -- the match lies entirely inside P: it was already a match in P ++ R
      have htrue : wbSearch kw (P ++ R) = true := by
        rw [wbSearch_exists]
        refine ⟨i, by simp only [List.length_append]; omega, ?_⟩
        unfold wbMatchAt
        simp only [Bool.and_eq_true, bne_iff_ne, ne_eq]
        refine ⟨⟨?_, ?_⟩, ?_⟩
        · have h1 : kw.isPrefixOf (P.drop i ++ T) = true := by
            rw [← drop_append_le P T i (le_of_lt hiP)]
            exact hpre
          have h2 : kw.length ≤ (P.drop i).length := by
            simp only [List.length_drop]
            omega
          have h3 := isPrefixOf_append_indep kw (P.drop i) T R h2 h1
          rw [drop_append_le P R i (le_of_lt hiP)]
          exact h3
        · have e1 : (P ++ T).get? i = (P ++ R).get? i := by
            rw [get?_append_lt P T i hiP, get?_append_lt P R i hiP]
          have e2 : (if i = 0 then none else (P ++ T).get? (i - 1)) =
              (if i = 0 then none else (P ++ R).get? (i - 1)) := by
            cases i with
            | zero => rfl
            | succ n =>
              simp only [if_neg (Nat.succ_ne_zero n)]
              rw [get?_append_lt P T _ (by omega), get?_append_lt P R _ (by omega)]
          rw [← e1, ← e2]
          exact hbL
        · rcases Nat.lt_or_ge (i + kw.length) P.length with hend2 | hend2
          · rw [show (P ++ R).get? (i + kw.length) = (P ++ T).get? (i + kw.length)
              from by rw [get?_append_lt P T _ hend2, get?_append_lt P R _ hend2]]
            exact hbR
          · have heq : i + kw.length = P.length := by omega
            have hvT : isWordO ((P ++ T).get? (i + kw.length)) = false := by
              rw [heq, get?_append_ge P T _ (le_refl _), Nat.sub_self, hT]
              rfl
            have hvR : isWordO ((P ++ R).get? (i + kw.length)) = false := by
              rw [heq, get?_append_ge P R _ (le_refl _), Nat.sub_self]
              cases R with
              | nil => rfl
              | cons r rs =>
                show isWordO (some r) = false
                show isWordChar r = false
                exact hR r (by simp)
            rw [hvR]
            rw [hvT] at hbR
            exact hbR
      rw [htrue] at hno
      cases hno
    · -- the match straddles the boundary: the matched slice contains the
      -- separator space, so the keyword would have to contain a space
      have hsum : i + (P.length - i) = P.length := by omega
      have hj2 : P.length - i < kw.length := by omega
      have hcharJ : (P ++ T).get? (i + (P.length - i)) = some ' ' := by
        rw [hsum, get?_append_ge P T _ (le_refl _), Nat.sub_self, hT]
        rfl
      have hkwJ : kw.get? (P.length - i) = some ' ' := by
        have h1 : ((P ++ T).drop i).get? (P.length - i) = kw.get? (P.length - i) :=
          prefix_get? kw _ hpre _ hj2
        rw [get?_drop'] at h1
        rw [← h1, hcharJ]
      obtain ⟨hcopy, hj4⟩ := blocked_kw_space kw hkw _ hj2 hkwJ
      have hI : (P ++ T).get? (i + 5) = kw.get? 5 := by
        have h1 := prefix_get? kw _ hpre 5 (by rw [hcopy]; decide)
        rw [get?_drop'] at h1
        exact h1
      have hL : (P ++ T).get? (i + 5) = some 'L' := by
        have h5 : i + 5 = P.length + 1 := by omega
        rw [h5, get?_append_ge P T _ (by omega),
          show P.length + 1 - P.length = 1 from by omega, hT]
        rfl
      rw [hL, hcopy] at hI
      rw [show ("COPY INTO".toList).get? 5 = some 'I' from rfl] at hI
      injection hI with hLI
      exact absurd hLI (by decide)
  · -- the match lies inside the appended region: impossible
    have hpre' : kw.isPrefixOf (T.drop (i - P.length)) = true := by
      rw [drop_append_ge P T i hiP] at hpre
      exact hpre
    rw [hT] at hpre'
    rw [no_kw_in_tail kw hkw (i - P.length) D hD] at hpre'
    cases hpre'

/-! ## Facts about the validator output assembled from the above -/

theorem map_eq_self_of {α : Type} (f : α → α) (l : List α)
    (h : ∀ x ∈ l, f x = x) : l.map f = l := by
  induction l with
  | nil => rfl
  | cons x xs ih =>
    rw [List.map_cons, h x (by simp), ih (fun y hy => h y (by simp [hy]))]

theorem containsSub_of_isPrefixOf (pat l : List Char)
    (h : pat.isPrefixOf l = true) : containsSub pat l = true := by
  cases l with
  | nil => exact h
  | cons x xs =>
    unfold containsSub
    rw [h]
    rfl

theorem containsSub_append_right (pat a b : List Char)
    (h : containsSub pat b = true) : containsSub pat (a ++ b) = true := by
  induction a with
  | nil => exact h
  | cons x xs ih =>
    show containsSub pat (x :: (xs ++ b)) = true
    unfold containsSub
    rw [ih]
    simp

theorem pySplitL_append_sep (a b : List Char) :
    pySplitL (a ++ ' ' :: b) = pySplitL a ++ pySplitL b :=
  splitAux_sep b ' ' (by decide) a []

theorem findBlocked_none_iff (u : List Char) :
    findBlocked u = none ↔ ∀ kw ∈ BLOCKED_KEYWORDS, wbSearch kw u = false := by
  unfold findBlocked
  rw [List.find?_eq_none]
  constructor
  · intro h kw hkw
    have := h kw hkw
    revert this
    cases wbSearch kw u <;> simp
  · intro h kw hkw
    rw [h kw hkw]
    simp

theorem upper_ne_sentinel_of_mem_space (l : List Char) (hsp : ' ' ∈ l) :
    String.mk (upperL l) ≠ "CANNOT_ANSWER" := by
  intro he
  have hl : upperL l = "CANNOT_ANSWER".toList := congrArg String.toList he
  have hmem : ' ' ∈ upperL l :=
    List.mem_map.mpr ⟨' ', hsp, by decide⟩
  rw [hl] at hmem
  exact absurd hmem (by decide)

theorem upper_token_ne_sentinel (t0 : List Char)
    (h : upperL t0 = "SELECT".toList ∨ upperL t0 = "WITH".toList) :
    String.mk (upperL t0) ≠ "CANNOT_ANSWER" := by
  intro he
  have hl : upperL t0 = "CANNOT_ANSWER".toList := congrArg String.toList he
  rcases h with h | h <;> rw [h] at hl <;> exact absurd hl (by decide)

theorem allow_token_chars (t0 : List Char)
    (h : upperL t0 = "SELECT".toList ∨ upperL t0 = "WITH".toList) :
    ∀ c ∈ t0, c ≠ ';' := by
  intro c hc
  have hmem : c.toUpper ∈ upperL t0 := List.mem_map_of_mem _ hc
  have hsub1 : ∀ x ∈ "SELECT".toList, x ∈ "SELECTWITH".toList := by decide
  have hsub2 : ∀ x ∈ "WITH".toList, x ∈ "SELECTWITH".toList := by decide
  have hmem2 : c.toUpper ∈ "SELECTWITH".toList := by
    rcases h with h | h
    · rw [h] at hmem
      exact hsub1 _ hmem
    · rw [h] at hmem
      exact hsub2 _ hmem
  exact (toUpper_in_allow_chars c c.toUpper rfl hmem2).2

theorem token_no_semi_rstrip (t0 : List Char) (hne : t0 ≠ [])
    (h : ∀ c ∈ t0, c ≠ ';') : rstripP (fun c => c == ';') t0 = t0 := by
  refine rstripP_eq_self _ _ ?_
  intro c hc
  have : c ∈ t0 := by
    have := List.mem_of_mem_head? hc
    exact List.mem_reverse.mp this
  simpa using h c this

/-- Inversion of a successful validation: the input splits into tokens whose
head case-folds to SELECT or WITH, the blocklist scan found nothing, and the
output is the normalised input — with a LIMIT clause appended after the two
right-strips exactly when the upper-cased normalised text did not contain
the substring LIMIT. -/
theorem validate_sql_ok_inv (s : String) (m : Nat) (out : String)
    (h : validate_sql s m = .ok out) :
    ∃ t0 ts, pySplitL s.toList = t0 :: ts ∧
      (upperL t0 = "SELECT".toList ∨ upperL t0 = "WITH".toList) ∧
      findBlocked (upperL (normaliseL s.toList)) = none ∧
      ((containsSub "LIMIT".toList (upperL (normaliseL s.toList)) = true ∧
        out = String.mk (normaliseL s.toList)) ∨
       (containsSub "LIMIT".toList (upperL (normaliseL s.toList)) = false ∧
        out = String.mk (rstripP pyIsSpace (rstripP (fun c => c == ';')
          (normaliseL s.toList)) ++ (" LIMIT " ++ toString m).toList))) := by
  unfold validate_sql at h
  cases hts : pySplitL s.toList with
  | nil =>
    rw [hts] at h
    simp at h
  | cons t0 ts =>
    rw [hts] at h
    simp only [] at h
    by_cases hsent : pyUpper (pyStrip s) = "CANNOT_ANSWER"
    · rw [if_pos hsent] at h
      simp at h
    · rw [if_neg hsent] at h
      have hfk : (pySplitL (normaliseL s.toList)).headD [] = t0 := by
        rw [pySplitL_normaliseL, hts]
        rfl
      rw [hfk] at h
      by_cases hallow : upperL t0 = "SELECT".toList ∨ upperL t0 = "WITH".toList
      · rw [if_pos hallow] at h
        cases hfb : findBlocked (upperL (normaliseL s.toList)) with
        | some kw =>
          rw [hfb] at h
          simp at h
        | none =>
          rw [hfb] at h
          refine ⟨t0, ts, rfl, hallow, rfl, ?_⟩
          by_cases hlim : containsSub "LIMIT".toList (upperL (normaliseL s.toList)) = true
          · rw [if_pos hlim] at h
            left
            refine ⟨hlim, ?_⟩
            injection h with h2
            exact h2.symm
          · have hlim' : containsSub "LIMIT".toList (upperL (normaliseL s.toList)) = false := by
              revert hlim
              cases containsSub "LIMIT".toList (upperL (normaliseL s.toList)) <;> simp
            rw [if_neg (by rw [hlim']; exact Bool.false_ne_true)] at h
            right
            refine ⟨hlim', ?_⟩
            injection h with h2
            exact h2.symm
      · rw [if_neg hallow] at h
        simp at h

theorem mk_toList (s : String) : String.mk s.toList = s := by
  cases s
  rfl

theorem normaliseL_idem (l : List Char) :
    normaliseL (normaliseL l) = normaliseL l := by
  show joinSep (pySplitL (normaliseL l)) = normaliseL l
  rw [pySplitL_normaliseL]
  rfl

theorem normaliseL_strip_fixed (l : List Char) (t0 : List Char)
    (ts : List (List Char)) (hts : pySplitL l = t0 :: ts) :
    stripL (normaliseL l) = normaliseL l := by
  have htoks := pySplitL_tokens l
  have ht0 := htoks t0 (by rw [hts]; simp)
  apply stripL_eq_self
  · intro c hc
    have h1 : (normaliseL l).head? = t0.head? := by
      show (joinSep (pySplitL l)).head? = _
      rw [hts]
      exact joinSep_head? t0 ts ht0.1
    rw [h1] at hc
    exact ht0.2 c (List.mem_of_mem_head? hc)
  · intro c hc
    have hne : pySplitL l ≠ [] := by rw [hts]; simp
    have hlast_mem := List.getLast_mem hne
    have hlt := htoks _ hlast_mem
    have h1 : (normaliseL l).reverse.head? =
        ((pySplitL l).getLast hne).reverse.head? := by
      show (joinSep (pySplitL l)).reverse.head? = _
      conv_lhs => rw [← List.dropLast_append_getLast hne]
      exact joinSep_revhead? _ _ hlt.1
    rw [h1] at hc
    exact hlt.2 c (List.mem_reverse.mp (List.mem_of_mem_head? hc))

/-- The two right-strips of the LIMIT-injection branch turn the normalised
text into a space-join of well-formed tokens that still starts with the
original first token. -/
theorem stripped_shape (s : String) (t0 : List Char) (ts : List (List Char))
    (hts : pySplitL s.toList = t0 :: ts)
    (ht0semi : ∀ c ∈ t0, c ≠ ';') :
    ∃ rest', rstripP pyIsSpace (rstripP (fun c => c == ';')
        (normaliseL s.toList)) = joinSep (t0 :: rest') ∧
      ∀ t ∈ t0 :: rest', t ≠ [] ∧ ∀ c ∈ t, pyIsSpace c = false := by
  have htoks := pySplitL_tokens s.toList
  have ht0 := htoks t0 (by rw [hts]; simp)
  have hNL : normaliseL s.toList = joinSep (t0 :: ts) := by
    show joinSep (pySplitL s.toList) = _
    rw [hts]
  cases ts with
  | nil =>
    refine ⟨[], ?_, ?_⟩
    · rw [hNL]
      show rstripP pyIsSpace (rstripP (fun c => c == ';') t0) = t0
      rw [token_no_semi_rstrip t0 ht0.1 ht0semi]
      refine rstripP_eq_self _ _ ?_
      intro c hc
      exact ht0.2 c (List.mem_reverse.mp (List.mem_of_mem_head? hc))
    · intro t htm
      rw [List.mem_singleton] at htm
      subst htm
      exact ht0
  | cons t1 ts2 =>
    have hne : (t0 :: t1 :: ts2 : List (List Char)) ≠ [] := by simp
    have hdecomp : (t0 :: t1 :: ts2 : List (List Char)) =
        (t0 :: t1 :: ts2).dropLast ++ [(t0 :: t1 :: ts2).getLast hne] :=
      (List.dropLast_append_getLast hne).symm
    have hlast_mem := List.getLast_mem hne
    have hlt : (t0 :: t1 :: ts2).getLast hne ≠ [] ∧
        ∀ c ∈ (t0 :: t1 :: ts2).getLast hne, pyIsSpace c = false := by
      refine htoks _ ?_
      rw [hts]
      exact hlast_mem
    have hds : ∀ t ∈ (t0 :: t1 :: ts2).dropLast,
        t ≠ [] ∧ ∀ c ∈ t, pyIsSpace c = false := by
      intro t htm
      refine htoks t ?_
      rw [hts]
      exact (List.dropLast_sublist _).subset htm
    have hdsshape : (t0 :: t1 :: ts2).dropLast = t0 :: (t1 :: ts2).dropLast := by
      simp [List.dropLast]
    have hstrip := strip_joinSep ((t0 :: t1 :: ts2).dropLast)
      ((t0 :: t1 :: ts2).getLast hne) hlt.1 hds hlt.2
      (by
        intro h
        rw [hdsshape] at h
        cases h)
    rw [hNL, hdecomp]
    rw [hstrip]
    by_cases hsemi : rstripP (fun c => c == ';') ((t0 :: t1 :: ts2).getLast hne) = []
    · rw [if_pos hsemi]
      refine ⟨(t1 :: ts2).dropLast, ?_, ?_⟩
      · rw [hdsshape]
      · intro t htm
        rcases List.mem_cons.mp htm with rfl | hmem
        · exact ht0
        · refine hds t ?_
          rw [hdsshape]
          simp [hmem]
    · rw [if_neg hsemi]
      refine ⟨(t1 :: ts2).dropLast ++
        [rstripP (fun c => c == ';') ((t0 :: t1 :: ts2).getLast hne)], ?_, ?_⟩
      · rw [hdsshape]
        rfl
      · intro t htm
        rcases List.mem_cons.mp htm with rfl | hmem
        · exact ht0
        · rcases List.mem_append.mp hmem with hmem2 | hmem2
          · refine hds t ?_
            rw [hdsshape]
            simp [hmem2]
          · rw [List.mem_singleton] at hmem2
            subst hmem2
            refine ⟨hsemi, ?_⟩
            intro c hc
            exact hlt.2 c (rstripP_mem _ _ c hc)

/-- The validator's output, in both branches, is a whitespace-canonical
string whose first token case-folds to SELECT or WITH, on which the
blocklist scan still finds nothing, which contains the substring LIMIT when
upper-cased, and which can never be mistaken for the sentinel. -/
theorem validate_ok_main (s : String) (m : Nat) (out : String)
    (h : validate_sql s m = .ok out) :
    ∃ t0 rest, pySplitL out.toList = t0 :: rest ∧
      (upperL t0 = "SELECT".toList ∨ upperL t0 = "WITH".toList) ∧
      findBlocked (upperL out.toList) = none ∧
      containsSub "LIMIT".toList (upperL out.toList) = true ∧
      normaliseL out.toList = out.toList ∧
      pyUpper (pyStrip out) ≠ "CANNOT_ANSWER" := by
  obtain ⟨t0, ts, hts, hallow, hfb, hcase⟩ := validate_sql_ok_inv s m out h
  have htoks := pySplitL_tokens s.toList
  have ht0 := htoks t0 (by rw [hts]; simp)
  have ht0semi := allow_token_chars t0 hallow
  have hNL : normaliseL s.toList = joinSep (t0 :: ts) := by
    show joinSep (pySplitL s.toList) = _
    rw [hts]
  rcases hcase with ⟨hlim, hout⟩ | ⟨hlim, hout⟩
  · -- no LIMIT appended: the output is the normalised input
    have houtl : out.toList = normaliseL s.toList := by
      rw [hout]
      rfl
    have hsplit : pySplitL out.toList = t0 :: ts := by
      rw [houtl, pySplitL_normaliseL, hts]
    have hstripfix : pyStrip out = out := by
      show String.mk (stripL out.toList) = out
      rw [houtl, normaliseL_strip_fixed s.toList t0 ts hts, ← houtl, mk_toList]
    have hsent : pyUpper (pyStrip out) ≠ "CANNOT_ANSWER" := by
      rw [hstripfix]
      show String.mk (upperL out.toList) ≠ _
      cases ts with
      | nil =>
        rw [houtl, hNL]
        exact upper_token_ne_sentinel t0 hallow
      | cons t1 ts2 =>
        apply upper_ne_sentinel_of_mem_space
        rw [houtl, hNL, joinSep_cons]
        exact List.mem_append.mpr (Or.inr (by simp))
    refine ⟨t0, ts, hsplit, hallow, ?_, ?_, ?_, hsent⟩
    · rw [houtl]
      exact hfb
    · rw [houtl]
      exact hlim
    · rw [houtl]
      exact normaliseL_idem s.toList
  · -- LIMIT appended after the two right-strips
    obtain ⟨rest', hSTeq, hprops'⟩ := stripped_shape s t0 ts hts ht0semi
    have hdigmem : ∀ c ∈ (toString m).toList, c ∈ "0123456789".toList :=
      repr_toList_mem m
    have hdigne : (toString m).toList ≠ [] := repr_toList_ne_nil m
    have hdigns : ∀ c ∈ (toString m).toList, pyIsSpace c = false :=
      fun c hc => ((digit_props c (hdigmem c hc)).2.2).1
    have houtl : out.toList = joinSep (t0 :: rest') ++
        ' ' :: 'L' :: 'I' :: 'M' :: 'I' :: 'T' :: ' ' :: (toString m).toList := by
      rw [hout]
      show rstripP pyIsSpace (rstripP (fun c => c == ';') (normaliseL s.toList)) ++
        (" LIMIT " ++ toString m).toList = _
      rw [hSTeq, str_toList_append]
      rfl
    have hLIMsplit : pySplitL
        ('L' :: 'I' :: 'M' :: 'I' :: 'T' :: ' ' :: (toString m).toList) =
        ["LIMIT".toList, (toString m).toList] := by
      show pySplitL ("LIMIT".toList ++ ' ' :: (toString m).toList) = _
      rw [pySplitL_append_sep]
      rw [pySplitL_single "LIMIT".toList (by decide) (by decide)]
      rw [pySplitL_single _ hdigne hdigns]
      rfl
    have hsplit : pySplitL out.toList =
        t0 :: (rest' ++ ["LIMIT".toList, (toString m).toList]) := by
      rw [houtl, pySplitL_append_sep, pySplitL_join _ hprops', hLIMsplit]
      rfl
    have hupperout : upperL out.toList = upperL (joinSep (t0 :: rest')) ++
        ' ' :: 'L' :: 'I' :: 'M' :: 'I' :: 'T' :: ' ' :: (toString m).toList := by
      rw [houtl]
      unfold upperL
      rw [List.map_append]
      congr 1
      simp only [List.map_cons]
      rw [show (' ').toUpper = ' ' from by decide,
        show ('L').toUpper = 'L' from by decide,
        show ('I').toUpper = 'I' from by decide,
        show ('M').toUpper = 'M' from by decide,
        show ('T').toUpper = 'T' from by decide]
      rw [map_eq_self_of _ _ (fun c hc => (digit_props c (hdigmem c hc)).1)]
    obtain ⟨r1, hr1, hr1p⟩ :=
      rstripP_decomp (fun c => c == ';') (normaliseL s.toList)
    obtain ⟨r2, hr2, hr2p⟩ :=
      rstripP_decomp pyIsSpace (rstripP (fun c => c == ';') (normaliseL s.toList))
    have hNLdecomp : normaliseL s.toList =
        joinSep (t0 :: rest') ++ (r2 ++ r1) := by
      conv_lhs => rw [hr1]
      conv_lhs => rw [hr2]
      rw [hSTeq, List.append_assoc]
    have hRw : ∀ c ∈ upperL (r2 ++ r1), isWordChar c = false := by
      intro c hc
      obtain ⟨d, hd, rfl⟩ := List.mem_map.mp hc
      rcases List.mem_append.mp hd with hd2 | hd2
      · have hsp := hr2p d hd2
        rw [toUpper_of_space d hsp]
        exact isWordChar_of_space d hsp
      · have hsemi := hr1p d hd2
        have hd' : d = ';' := by simpa using hsemi
        subst hd'
        decide
    have hfbout : findBlocked (upperL out.toList) = none := by
      rw [findBlocked_none_iff]
      intro kw hkw
      rw [hupperout]
      apply wbSearch_stable kw hkw _ (upperL (r2 ++ r1)) _ hRw hdigmem
      have hno := (findBlocked_none_iff _).mp hfb kw hkw
      rw [hNLdecomp] at hno
      unfold upperL at hno ⊢
      rw [List.map_append] at hno
      exact hno
    have hlimout : containsSub "LIMIT".toList (upperL out.toList) = true := by
      rw [hupperout]
      rw [show (' ' :: 'L' :: 'I' :: 'M' :: 'I' :: 'T' :: ' ' :: (toString m).toList) =
        [' '] ++ ("LIMIT".toList ++ (' ' :: (toString m).toList)) from rfl]
      rw [← List.append_assoc]
      apply containsSub_append_right
      apply containsSub_of_isPrefixOf
      exact List.isPrefixOf_iff_prefix.mpr (List.prefix_append _ _)
    have hnorm : normaliseL out.toList = out.toList := by
      show joinSep (pySplitL out.toList) = out.toList
      rw [hsplit, houtl]
      rw [show (t0 :: (rest' ++ ["LIMIT".toList, (toString m).toList])) =
        (t0 :: rest') ++ ["LIMIT".toList, (toString m).toList] from rfl]
      rw [joinSep_append (t0 :: rest') _ (by simp) (by simp)]
      rfl
    have hSTne : joinSep (t0 :: rest') ≠ [] := by
      intro hx
      have hh := joinSep_head? t0 rest' ht0.1
      rw [hx] at hh
      obtain ⟨c0, t0tail, rfl⟩ := List.exists_cons_of_ne_nil ht0.1
      simp at hh
    have hstripfix : pyStrip out = out := by
      show String.mk (stripL out.toList) = out
      have hfix : stripL out.toList = out.toList := by
        apply stripL_eq_self
        · intro c hc
          rw [houtl] at hc
          rw [head?_append_left _ _ hSTne] at hc
          rw [joinSep_head? t0 rest' ht0.1] at hc
          exact ht0.2 c (List.mem_of_mem_head? hc)
        · intro c hc
          rw [houtl] at hc
          rw [show joinSep (t0 :: rest') ++
            ' ' :: 'L' :: 'I' :: 'M' :: 'I' :: 'T' :: ' ' :: (toString m).toList =
            (joinSep (t0 :: rest') ++ [' ', 'L', 'I', 'M', 'I', 'T', ' ']) ++
              (toString m).toList from by rw [List.append_assoc]; rfl] at hc
          rw [revhead?_append _ _ hdigne] at hc
          exact hdigns c (List.mem_reverse.mp (List.mem_of_mem_head? hc))
      rw [hfix, mk_toList]
    have hsent : pyUpper (pyStrip out) ≠ "CANNOT_ANSWER" := by
      rw [hstripfix]
      show String.mk (upperL out.toList) ≠ _
      apply upper_ne_sentinel_of_mem_space
      rw [houtl]
      exact List.mem_append.mpr (Or.inr (by simp))
    exact ⟨t0, _, hsplit, hallow, hfbout, hlimout, hnorm, hsent⟩

/-! ## C1 — amended output guarantee -/

/-- C1 amended: every string that validate_sql returns has SELECT or WITH as
its first case-folded whitespace-delimited token, contains no blocked
keyword at word boundaries, and contains the five characters of LIMIT as a
substring of its case-folded text; but it may consist of several
semicolon-separated statements, and no bound relative to max_rows holds
(the LIMIT substring may sit inside an identifier or carry any numeral). -/
theorem validate_sql_output_readonly (s : String) (m : Nat) (out : String)
    (h : validate_sql s m = .ok out) :
    (∃ t0 rest, pySplitL out.toList = t0 :: rest ∧
      (upperL t0 = "SELECT".toList ∨ upperL t0 = "WITH".toList)) ∧
    (∀ kw ∈ BLOCKED_KEYWORDS, wbSearch kw (upperL out.toList) = false) ∧
    containsSub "LIMIT".toList (upperL out.toList) = true := by
  obtain ⟨t0, rest, hsplit, hallow, hfb, hlim, -, -⟩ := validate_ok_main s m out h
  exact ⟨⟨t0, rest, hsplit, hallow⟩, (findBlocked_none_iff _).mp hfb, hlim⟩

/-- Witness for the amended C1 on a concrete validated query. -/
theorem validate_sql_output_readonly_witness :
    (∃ t0 rest, pySplitL ("SELECT a FROM t LIMIT 500").toList = t0 :: rest ∧
      (upperL t0 = "SELECT".toList ∨ upperL t0 = "WITH".toList)) ∧
    (∀ kw ∈ BLOCKED_KEYWORDS,
      wbSearch kw (upperL ("SELECT a FROM t LIMIT 500").toList) = false) ∧
    containsSub "LIMIT".toList (upperL ("SELECT a FROM t LIMIT 500").toList)
      = true :=
  validate_sql_output_readonly "SELECT a FROM t" 500 "SELECT a FROM t LIMIT 500" rfl

/-! ## C4 — amended LIMIT-injection condition -/

/-- C4 amended: the LIMIT clause is appended exactly when the five-character
substring LIMIT occurs nowhere in the case-folded normalised input — a
substring test, not a standalone-token test. -/
theorem validate_sql_limit_append (s : String) (m : Nat) (out : String)
    (h : validate_sql s m = .ok out)
    (hnl : containsSub "LIMIT".toList (upperL (normaliseL s.toList)) = false) :
    out = String.mk (rstripP pyIsSpace (rstripP (fun c => c == ';')
      (normaliseL s.toList)) ++ (" LIMIT " ++ toString m).toList) := by
  obtain ⟨t0, ts, hts, hallow, hfb, hcase⟩ := validate_sql_ok_inv s m out h
  rcases hcase with ⟨hlim, _⟩ | ⟨_, hout⟩
  · rw [hlim] at hnl
    cases hnl
  · exact hout

/-- Witness for the amended C4 on a concrete query without LIMIT. -/
theorem validate_sql_limit_append_witness :
    "SELECT a FROM t LIMIT 500" =
      String.mk (rstripP pyIsSpace (rstripP (fun c => c == ';')
        (normaliseL ("SELECT a FROM t").toList)) ++
        (" LIMIT " ++ toString 500).toList) :=
  validate_sql_limit_append "SELECT a FROM t" 500 "SELECT a FROM t LIMIT 500"
    rfl rfl

/-! ## C5 — idempotence of validation -/

/-- C5: validation is idempotent — re-validating a successful output returns
it unchanged.  Moreover a single append happens exactly when the case-folded
normalised input lacked the substring LIMIT, and an input containing it is
returned merely whitespace-normalised. -/
theorem validate_sql_idempotent (s : String) (m : Nat) (out : String)
    (h : validate_sql s m = .ok out) :
    validate_sql out m = .ok out ∧
    (containsSub "LIMIT".toList (upperL (normaliseL s.toList)) = true →
      out = String.mk (normaliseL s.toList)) ∧
    (containsSub "LIMIT".toList (upperL (normaliseL s.toList)) = false →
      out = String.mk (rstripP pyIsSpace (rstripP (fun c => c == ';')
        (normaliseL s.toList)) ++ (" LIMIT " ++ toString m).toList)) := by
  obtain ⟨t0, rest, hsplit, hallow, hfb, hlim, hnorm, hsent⟩ :=
    validate_ok_main s m out h
  refine ⟨?_, ?_, ?_⟩
  · unfold validate_sql
    simp only [hsplit]
    rw [if_neg hsent]
    rw [hnorm, hsplit]
    simp only [List.headD_cons]
    rw [if_pos hallow]
    simp only [hfb]
    rw [if_pos hlim, mk_toList]
  · intro hl
    obtain ⟨t0', ts', hts', _, _, hcase⟩ := validate_sql_ok_inv s m out h
    rcases hcase with ⟨_, ho⟩ | ⟨hl2, _⟩
    · exact ho
    · rw [hl] at hl2
      cases hl2
  · intro hl
    obtain ⟨t0', ts', hts', _, _, hcase⟩ := validate_sql_ok_inv s m out h
    rcases hcase with ⟨hl2, _⟩ | ⟨_, ho⟩
    · rw [hl] at hl2
      cases hl2
    · exact ho

/-- Witness for C5: re-validating a concrete validated output is a no-op. -/
theorem validate_sql_idempotent_witness :
    validate_sql "SELECT a FROM t LIMIT 500" 500 =
      .ok "SELECT a FROM t LIMIT 500" :=
  (validate_sql_idempotent "SELECT a FROM t" 500 "SELECT a FROM t LIMIT 500"
    rfl).1

end SqlAgent
